import Mathlib

/-!
# Verification of the `spell` subprocess library (spell.hh)

Shallow embedding of the core of the single-header C++ subprocess library
`spell.hh`: the environment map (`Env`), the command builder (`Spell`), the
quoting-aware command-line splitter (`Spell::from_string`), the launch
sequencer (`Spell::do_cast` and the `cast` / `cast_status` / `cast_output`
entry points, POSIX `fork`/`exec` branch), and the child-process handle
(`Child::try_wait` / `Child::wait`).

Machine-level state is made explicit:
* OS pipe handles are natural numbers; the set of handles open in the calling
  process is threaded through every operation as an `OS` record.
* The outcome of the `exec` call in the forked child (the 4-byte error report
  on the side-channel pipe) is a boolean parameter `execOk`.
* Raw `waitpid` statuses are natural numbers supplied by the caller of the
  wait operations, standing for the value the OS writes.
-/

set_option autoImplicit false

namespace Spell2

/-! ## Environment map (`spell::Env`)

`Env` in the source is an `unordered_set` of `Env_Var` (one owned `KEY=VALUE`
buffer) whose hash and equality look only at the key, so it behaves as an
association map with at most one entry per key.  We embed it as a list of
`(key, value)` pairs; the hash-set uniqueness invariant is the `Nodup`
hypothesis on the mapped keys where a proof needs it.  Order of entries is
irrelevant to `get`/`contains`/`size`, matching the unordered container. -/

abbrev Env : Type := List (String × String)

namespace Env

/-- `Env::Env(false)` / `Env::empty_env()`: the empty environment. -/
def empty_env : Env := []

/-- `Env::get`: value of the variable, or the empty string if it does not
exist (the find on the set locates the entry by key). -/
def get : Env → String → String
  | [], _ => ""
  | x :: rest, key => if x.1 = key then x.2 else get rest key

/-- Membership test, mirroring `data_.find(key) != data_.end()`. -/
def contains : Env → String → Bool
  | [], _ => false
  | x :: rest, key => x.1 = key || contains rest key

/-- `Env::set`: if an entry with this key exists its value part is rewritten
in place; otherwise a fresh `KEY=VALUE` entry is emplaced. -/
def set : Env → String → String → Env
  | [], key, value => [(key, value)]
  | x :: rest, key, value =>
      if x.1 = key then (key, value) :: rest else x :: set rest key value

/-- `Env::remove`: erase the entry with this key, if any. -/
def remove : Env → String → Env
  | [], _ => []
  | x :: rest, key => if x.1 = key then rest else x :: remove rest key

/-- Number of variables in the map (`data_.size()`). -/
def size (e : Env) : Nat := e.length

/-- `Env::rename`: if `key` is present, a copy of its variable gets the new
key, the old entry is erased, and the copy is inserted back into the set.
`unordered_set::insert` is a no-op when an element with an equal key (here:
`new_key`) is already present, so the carried value is dropped in that case. -/
def rename (e : Env) (key new_key : String) : Env :=
  if contains e key then
    let value := get e key
    let e' := remove e key
    if contains e' new_key then e' else e' ++ [(new_key, value)]
  else e

/-- Serialization of the map for the spawn call: one flattened `KEY=VALUE`
string per variable (`Env_Var::unwrap`). -/
def serialize (e : Env) : List String := e.map (fun v => v.1 ++ "=" ++ v.2)

end Env

/-! ### Env lemmas -/

theorem Env.get_set (e : Env) (key value : String) :
    Env.get (Env.set e key value) key = value := by
  induction e with
  | nil => simp [Env.set, Env.get]
  | cons x rest ih =>
      by_cases h : x.1 = key <;> simp [Env.set, Env.get, h, ih]

theorem Env.get_of_not_contains (e : Env) (key : String)
    (h : Env.contains e key = false) : Env.get e key = "" := by
  induction e with
  | nil => simp [Env.get]
  | cons x rest ih =>
      simp only [Env.contains, Bool.or_eq_false_iff, decide_eq_false_iff_not] at h
      simp [Env.get, h.1, ih h.2]

theorem Env.contains_eq_mem_keys (e : Env) (key : String) :
    Env.contains e key = true ↔ key ∈ e.map Prod.fst := by
  induction e with
  | nil => simp [Env.contains]
  | cons x rest ih =>
      simp only [Env.contains, Bool.or_eq_true, decide_eq_true_eq, List.map_cons,
        List.mem_cons]
      constructor
      · rintro (h | h)
        · exact Or.inl h.symm
        · exact Or.inr (ih.1 h)
      · rintro (h | h)
        · exact Or.inl h.symm
        · exact Or.inr (ih.2 h)

theorem Env.get_remove_self (e : Env) (key : String)
    (h : (e.map Prod.fst).Nodup) : Env.get (Env.remove e key) key = "" := by
  induction e with
  | nil => simp [Env.remove, Env.get]
  | cons x rest ih =>
      simp only [List.map_cons, List.nodup_cons] at h
      by_cases hx : x.1 = key
      · subst hx
        simp only [Env.remove, if_pos rfl]
        apply Env.get_of_not_contains
        by_cases hc : Env.contains rest x.1 = true
        · exact absurd ((Env.contains_eq_mem_keys rest x.1).1 hc) h.1
        · simpa using hc
      · simp [Env.remove, hx, Env.get, ih h.2]

theorem Env.size_set_of_contains (e : Env) (key value : String)
    (h : Env.contains e key = true) :
    Env.size (Env.set e key value) = Env.size e := by
  induction e with
  | nil => simp [Env.contains] at h
  | cons x rest ih =>
      by_cases hx : x.1 = key
      · simp [Env.set, hx, Env.size]
      · simp only [Env.contains, Bool.or_eq_true, decide_eq_true_eq] at h
        rcases h with h | h
        · exact absurd h hx
        · simp only [Env.set, if_neg hx, Env.size, List.length_cons]
          have := ih h
          simp only [Env.size] at this
          omega

theorem Env.contains_remove_ne (e : Env) (key other : String) (h : key ≠ other) :
    Env.contains (Env.remove e key) other = Env.contains e other := by
  induction e with
  | nil => simp [Env.remove]
  | cons x rest ih =>
      by_cases hx : x.1 = key
      · subst hx
        simp only [Env.remove, if_pos rfl, Env.contains]
        have : (x.1 = other) = False := by
          simp only [eq_iff_iff, iff_false]
          exact h
        simp [this]
      · simp [Env.remove, hx, Env.contains, ih]

theorem Env.get_remove_ne (e : Env) (key other : String) (h : key ≠ other) :
    Env.get (Env.remove e key) other = Env.get e other := by
  induction e with
  | nil => simp [Env.remove]
  | cons x rest ih =>
      by_cases hx : x.1 = key
      · subst hx
        simp only [Env.remove, if_pos rfl, Env.get]
        have : x.1 ≠ other := h
        simp [this]
      · simp [Env.remove, hx, Env.get, ih]

theorem Env.contains_remove_self (e : Env) (key : String)
    (h : (e.map Prod.fst).Nodup) : Env.contains (Env.remove e key) key = false := by
  induction e with
  | nil => simp [Env.remove, Env.contains]
  | cons x rest ih =>
      simp only [List.map_cons, List.nodup_cons] at h
      by_cases hx : x.1 = key
      · subst hx
        simp only [Env.remove, if_pos rfl]
        by_cases hc : Env.contains rest x.1 = true
        · exact absurd ((Env.contains_eq_mem_keys rest x.1).1 hc) h.1
        · simpa using hc
      · simp [Env.remove, hx, Env.contains, ih h.2]

theorem Env.size_remove_of_contains (e : Env) (key : String)
    (h : Env.contains e key = true) :
    Env.size (Env.remove e key) = Env.size e - 1 := by
  induction e with
  | nil => simp [Env.contains] at h
  | cons x rest ih =>
      by_cases hx : x.1 = key
      · simp [Env.remove, hx, Env.size]
      · simp only [Env.contains, Bool.or_eq_true, decide_eq_true_eq] at h
        rcases h with h | h
        · exact absurd h hx
        · have hne : rest ≠ [] := by
            intro hr
            rw [hr] at h
            simp [Env.contains] at h
          have hlen : 0 < rest.length := List.length_pos.2 hne
          simp only [Env.remove, if_neg hx, Env.size, List.length_cons]
          have := ih h
          simp only [Env.size] at this
          omega

/-! ## Stream configuration, exit status, output -/

/-- `spell::Stdio`: what to do with a standard I/O stream of the child. -/
inductive Stdio where
  | Default
  | Inherit
  | Piped
  | Null
deriving DecidableEq

/-- `spell::Exit_Status`: wraps the integer result code of a process. -/
structure ExitStatus where
  code : Int
deriving DecidableEq

/-- `Exit_Status::success`: was the exit status zero? -/
def ExitStatus.success (s : ExitStatus) : Bool := s.code = 0

/-- `spell::Output`: exit status plus captured stdout/stderr bytes. -/
structure Output where
  status : ExitStatus
  stdout_ : List Char
  stderr_ : List Char
deriving DecidableEq

/-! ## OS handles and pipes

A `Pipe_Handle` is a natural number; `INVALID_PIPE` is `Option.none` (an
`Anonymous_Pipe` holding no valid handle).  `OS` is the per-process state the
launch sequencer manipulates: the set of handles open in the calling process
and a fresh-handle counter.  `Anonymous_Pipe::create` (one `pipe2` call),
`create_inherit` (two `dup`s of a standard stream), and `create_null` (two
`dup`s of the lazily opened null-device handle, itself a process-wide
singleton that is part of the ambient open set, not created per launch) all
hand the caller two freshly allocated handle values. -/

structure OS where
  next : Nat
  opened : Finset Nat
deriving DecidableEq

/-- Allocate one fresh handle in the calling process. -/
def OS.alloc (os : OS) : Nat × OS :=
  (os.next, { next := os.next + 1, opened := insert os.next os.opened })

/-- `detail::close_pipe`: the handle is no longer open in this process. -/
def OS.close (os : OS) (h : Nat) : OS :=
  { os with opened := os.opened.erase h }

/-- `Anonymous_Pipe::drop`: close the held handle if it is valid, else no-op. -/
def dropPipe (p : Option Nat) (os : OS) : OS :=
  match p with
  | some h => os.close h
  | none => os

/-- A read/write pair of pipe ends (`Anonymous_Pipe::Pipes`). -/
structure Pipes where
  read : Option Nat
  write : Option Nat
deriving DecidableEq

/-- Two freshly allocated handle values, as produced by each of `create`,
`create_inherit` and `create_null`. -/
def createPair (os : OS) : Pipes × OS :=
  let a := os.alloc
  let b := a.2.alloc
  ({ read := some a.1, write := some b.1 }, b.2)

/-! ## Child handle (`spell::Child`) -/

/-- `spell::Child`: pid, cached raw wait status (`-1` until a wait succeeded),
and the three owned pipe ends. -/
structure Child where
  pid_ : Nat
  status_ : Int
  stdin_ : Option Nat
  stdout_ : Option Nat
  stderr_ : Option Nat
deriving DecidableEq

/-- POSIX `WEXITSTATUS`: the actual exit code encoded in a raw `waitpid`
status, `(status >> 8) & 0xff` (raw statuses are nonnegative). -/
def WEXITSTATUS (status : Int) : Int :=
  ((status.toNat / 256) % 256 : Nat)

/-- `Child::try_wait` (POSIX branch).  `raw` is what the OS reports: `some
status` when `waitpid(pid, &status, WNOHANG)` reaps the exited child, `none`
when it is still running.  On success the raw status is cached in `status_`
and `Exit_Status(status)` is returned — the raw encoded status, with no
`WEXITSTATUS` decoding. -/
def Child.try_wait (c : Child) (raw : Option Nat) : Option ExitStatus × Child :=
  match raw with
  | some status => (some ⟨(status : Int)⟩, { c with status_ := (status : Int) })
  | none => (none, c)

/-- `Child::wait` (POSIX branch).  `raw` is the status the blocking `waitpid`
loop writes; the status is fetched from the OS only when no status is cached
yet (`status_ == -1`), and the child's stdin is dropped first.  The last
component counts the OS wait primitive invocations this call performs. -/
def Child.wait (c : Child) (raw : Nat) (os : OS) : ExitStatus × Child × OS × Nat :=
  if c.status_ ≠ -1 then
    (⟨WEXITSTATUS c.status_⟩, c, os, 0)
  else
    (⟨WEXITSTATUS (raw : Int)⟩,
     { c with status_ := (raw : Int), stdin_ := none },
     dropPipe c.stdin_ os, 1)

/-- `Child::wait` (Windows branch).  The exit code from `GetExitCodeProcess`
is used directly (no `WEXITSTATUS` on Windows) and — unlike the POSIX branch,
and unlike the Windows `try_wait`, which does assign `status_` — the fetched
status is never written back to `status_`.  `status` is the value
`GetExitCodeProcess` leaves in its out parameter: the child's exit code when
the handle is still valid; on a repeated call the first call has already
closed the process handle with `CloseHandle`, the wait and the query fail,
and the `DWORD` keeps whatever was on the stack, so the parameter stands for
an arbitrary value.  (The process handle is not a pipe handle and its
closing is not tracked in `OS`.)  The last component counts the OS wait
primitive invocations this call performs. -/
def Child.wait_win (c : Child) (status : Nat) (os : OS) :
    ExitStatus × Child × OS × Nat :=
  if c.status_ ≠ -1 then
    (⟨c.status_⟩, c, os, 0)
  else
    (⟨(status : Int)⟩, { c with stdin_ := none }, dropPipe c.stdin_ os, 1)

/-- `Anonymous_Pipe::read_all` as used after the child exited: returns the
bytes still buffered in the pipe; on an invalid handle the `ioctl` fails and
the output vector stays empty. -/
def read_all (p : Option Nat) (avail : List Char) : List Char :=
  match p with
  | some _ => avail
  | none => []

/-- `Child::wait_with_output`: wait, then drain remaining stdout/stderr. -/
def Child.wait_with_output (c : Child) (raw : Nat) (os : OS)
    (outBytes errBytes : List Char) : Output × Child × OS :=
  let w := c.wait raw os
  ({ status := w.1,
     stdout_ := read_all w.2.1.stdout_ outBytes,
     stderr_ := read_all w.2.1.stderr_ errBytes },
   w.2.1, w.2.2.1)

/-! ## The command builder (`spell::Spell`)

Paths are strings.  `std::filesystem::weakly_canonical` is modelled by its
lexical normalization (splitting on `/`, dropping `.` and empty components,
resolving `..` against the preceding component); resolution of symbolic links
in the existing prefix is a property of the ambient filesystem and is not
modelled. -/

/-- `std::filesystem::path::is_absolute` on POSIX: the path begins with the
directory separator. -/
def Path.isAbsolute (p : String) : Bool := p.toList.head? = some '/'

/-- Lexical normalization of an absolute path, as performed by
`std::filesystem::weakly_canonical` on the part of the path that does not
exist (and, symlinks aside, on the whole path). -/
def weakly_canonical (p : String) : String :=
  let comps := (p.splitOn "/").filter (fun c => c ≠ "" && c ≠ ".")
  let normed := comps.foldl
    (fun acc c => if c = ".." then acc.dropLast else acc ++ [c]) []
  "/" ++ String.intercalate "/" normed

/-- `spell::Spell`: the process descriptor / builder. -/
structure Spell where
  program_ : String
  args_ : List String
  env_ : Option Env
  working_dir_ : String
  stdout_ : Stdio
  stderr_ : Stdio
  stdin_ : Stdio
deriving DecidableEq

namespace Spell

/-- The `Spell(program)` constructor.  `cwd` is the ambient
`std::filesystem::current_path()` of the calling process. -/
def new (program : String) (cwd : String) : Spell :=
  { program_ := program
    args_ := []
    env_ := none
    working_dir_ := cwd
    stdout_ := Stdio.Default
    stderr_ := Stdio.Default
    stdin_ := Stdio.Default }

/-- `Spell::arg`: append one argument. -/
def arg (sp : Spell) (a : String) : Spell :=
  { sp with args_ := sp.args_ ++ [a] }

/-- `Spell::current_dir`: an absolute path replaces the working directory
outright; a relative path is appended to it and weakly canonicalized. -/
def current_dir (sp : Spell) (dir : String) : Spell :=
  if Path.isAbsolute dir then
    { sp with working_dir_ := dir }
  else
    { sp with working_dir_ := weakly_canonical (sp.working_dir_ ++ "/" ++ dir) }

/-- `Spell::set_stdout`. -/
def set_stdout (sp : Spell) (cfg : Stdio) : Spell := { sp with stdout_ := cfg }

/-- `Spell::set_stderr`. -/
def set_stderr (sp : Spell) (cfg : Stdio) : Spell := { sp with stderr_ := cfg }

/-- `Spell::set_stdin`. -/
def set_stdin (sp : Spell) (cfg : Stdio) : Spell := { sp with stdin_ := cfg }

/-- `Spell::env`: lazily materialize the environment (a snapshot `procEnv` of
the live process environment) and set one variable. -/
def env (sp : Spell) (procEnv : Env) (key value : String) : Spell :=
  match sp.env_ with
  | some e => { sp with env_ := some (e.set key value) }
  | none => { sp with env_ := some (procEnv.set key value) }

/-- `Spell::env_clear`: materialize an *empty* map (or clear the present one). -/
def env_clear (sp : Spell) : Spell :=
  match sp.env_ with
  | some _ => { sp with env_ := some [] }
  | none => { sp with env_ := some Env.empty_env }

/-- The non-const `Spell::get_envs` overload: when the environment is absent
it is first materialized as a snapshot of the live process environment
(`env_.emplace()` runs `Env(true)`, modelled by the parameter `procEnv`);
the stored map is returned together with the updated descriptor. -/
def get_envs_mut (sp : Spell) (procEnv : Env) : Env × Spell :=
  match sp.env_ with
  | some e => (e, sp)
  | none => (procEnv, { sp with env_ := some procEnv })

/-- The const `Spell::get_envs` overload: when the environment is absent a
shared static empty environment is returned and the descriptor is untouched. -/
def get_envs_const (sp : Spell) : Env :=
  match sp.env_ with
  | some e => e
  | none => Env.empty_env

end Spell

/-! ## `Spell::from_string`

The splitter works on a `std::string_view`; every call site in the repository
passes a view over a NUL-terminated buffer (a string literal or a
`std::string`), so reading the byte at the view's end yields the terminator.
The embedding works on the view's character list.  The `chomp` lambda's
token loop is a character-at-a-time state machine; the C++ escape case
(`case '\\': ++it; ...`) consumes two characters at once, embedded here with
an explicit escape-pending flag.

When the escape case meets the end of input (a trailing backslash), the
`break` in the C++ exits only the `switch`, after which the `for` loop
increments the iterator past `end` and dereferences it: the loop condition
`it != end` no longer stops it, and the parse reads beyond even the
terminator.  That out-of-range access is the embedding's `none` outcome;
everywhere else the parse stays within the buffer. -/

/-- The `'\0'` sentinel the splitter uses for "not inside a quoted span". -/
def NUL : Char := Char.ofNat 0

/-- The token loop of the `chomp` lambda.  `esc` is true when a backslash was
just consumed, `inStr` holds the active quote character (`NUL` outside
quotes), `acc` is the `chomped` buffer.  Returns the token together with the
unconsumed remainder (starting at the delimiting space, when one was hit), or
`none` when the loop dereferences past the end of the buffer (trailing
backslash). -/
def chompLoop : List Char → Bool → Char → List Char → Option (List Char × List Char)
  | [], true, _, _ =>
      -- `++it` reached `end`; the `break` leaves only the switch and the
      -- loop increment pushes `it` past `end`: out-of-range dereference
      none
  | [], false, _, acc => some (acc, [])
  | c :: rest, true, inStr, acc =>
      -- the character after a backslash is pushed literally
      chompLoop rest false inStr (acc ++ [c])
  | c :: rest, false, inStr, acc =>
      if c = '\\' then
        chompLoop rest true inStr acc
      else if c = '\'' ∨ c = '"' then
        if inStr = NUL then chompLoop rest false c acc
        else if c = inStr then chompLoop rest false NUL acc
        else chompLoop rest false inStr (acc ++ [c])
      else if c = ' ' then
        if inStr = NUL then some (acc, c :: rest)  -- goto break_
        else chompLoop rest false inStr (acc ++ [' '])
      else
        chompLoop rest false inStr (acc ++ [c])

/-- The epilogue of `chomp`: `while (command_line.front () == ' ')
remove_prefix (1);`.  When the view is empty, `front()` reads the buffer's
NUL terminator, which is not a space, and the loop stops. -/
def skipSpaces : List Char → List Char
  | ' ' :: rest => skipSpaces rest
  | rest => rest

/-- One call of the `chomp` lambda: extract a token, then skip the spaces
before the next one. -/
def chomp (l : List Char) : Option (List Char × List Char) :=
  match chompLoop l false NUL [] with
  | none => none
  | some (tok, rest) => some (tok, skipSpaces rest)

theorem chompLoop_length {l : List Char} {esc : Bool} {inStr : Char}
    {acc tok rest : List Char}
    (h : chompLoop l esc inStr acc = some (tok, rest)) :
    rest.length ≤ l.length ∧ (acc.length < tok.length → rest.length < l.length) := by
  induction l generalizing esc inStr acc with
  | nil =>
      cases esc with
      | true => simp [chompLoop] at h
      | false =>
          simp only [chompLoop, Option.some.injEq, Prod.mk.injEq] at h
          rcases h with ⟨h1, h2⟩
          subst h1
          subst h2
          exact ⟨Nat.le_refl _, fun hlt => absurd hlt (lt_irrefl _)⟩
  | cons c l' ih =>
      cases esc with
      | true =>
          simp only [chompLoop] at h
          have := ih h
          exact ⟨Nat.le_succ_of_le this.1, fun _ => Nat.lt_succ_of_le this.1⟩
      | false =>
          simp only [chompLoop] at h
          by_cases h1 : c = '\\'
          · rw [if_pos h1] at h
            have := ih h
            exact ⟨Nat.le_succ_of_le this.1, fun _ => Nat.lt_succ_of_le this.1⟩
          · rw [if_neg h1] at h
            by_cases h2 : c = '\'' ∨ c = '"'
            · rw [if_pos h2] at h
              by_cases h3 : inStr = NUL
              · rw [if_pos h3] at h
                have := ih h
                exact ⟨Nat.le_succ_of_le this.1, fun _ => Nat.lt_succ_of_le this.1⟩
              · rw [if_neg h3] at h
                by_cases h4 : c = inStr
                · rw [if_pos h4] at h
                  have := ih h
                  exact ⟨Nat.le_succ_of_le this.1, fun _ => Nat.lt_succ_of_le this.1⟩
                · rw [if_neg h4] at h
                  have := ih h
                  exact ⟨Nat.le_succ_of_le this.1, fun _ => Nat.lt_succ_of_le this.1⟩
            · rw [if_neg h2] at h
              by_cases h5 : c = ' '
              · rw [if_pos h5] at h
                by_cases h6 : inStr = NUL
                · rw [if_pos h6] at h
                  simp only [Option.some.injEq, Prod.mk.injEq] at h
                  rcases h with ⟨htok, hrest⟩
                  subst htok
                  subst hrest
                  exact ⟨Nat.le_refl _, fun hlt => absurd hlt (lt_irrefl _)⟩
                · rw [if_neg h6] at h
                  have := ih h
                  exact ⟨Nat.le_succ_of_le this.1, fun _ => Nat.lt_succ_of_le this.1⟩
              · rw [if_neg h5] at h
                have := ih h
                exact ⟨Nat.le_succ_of_le this.1, fun _ => Nat.lt_succ_of_le this.1⟩

theorem skipSpaces_length (l : List Char) : (skipSpaces l).length ≤ l.length := by
  induction l with
  | nil => simp [skipSpaces]
  | cons c rest ih =>
      by_cases h : c = ' '
      · subst h
        simpa [skipSpaces] using Nat.le_succ_of_le ih
      · have : skipSpaces (c :: rest) = c :: rest := by
          cases rest <;> simp_all [skipSpaces]
        simp [this]

theorem chomp_progress {l : List Char} {tok rest : List Char}
    (h : chomp l = some (tok, rest)) (htok : tok ≠ []) :
    rest.length < l.length := by
  unfold chomp at h
  cases hc : chompLoop l false NUL [] with
  | none => rw [hc] at h; exact absurd h (by simp)
  | some p =>
      obtain ⟨tok', rest'⟩ := p
      rw [hc] at h
      simp only [Option.some.injEq, Prod.mk.injEq] at h
      obtain ⟨h1, h2⟩ := h
      have hlen := chompLoop_length hc
      have hpos : 0 < tok'.length := by
        rw [h1]
        exact List.length_pos.2 htok
      calc rest.length = (skipSpaces rest').length := by rw [h2]
        _ ≤ rest'.length := skipSpaces_length _
        _ < l.length := hlen.2 (by simpa using hpos)

/-- The argument loop of `from_string`:
`while (!(arg = chomp ()).empty ()) spell.arg (arg);`.
Structured with a fuel parameter so that the definition computes by
iota-reduction; `chomp_progress` shows every iteration with a nonempty token
strictly shrinks the remainder, so with the fuel `tokensLoop` supplies the
zero-fuel branch is never reached (`tokensLoopF_congr` makes this precise). -/
def tokensLoopF : Nat → List Char → List String → Option (List String)
  | 0, _, _ => none
  | fuel + 1, l, acc =>
      match chomp l with
      | none => none
      | some (tok, rest) =>
          if tok = [] then some acc
          else tokensLoopF fuel rest (acc ++ [String.mk tok])

/-- The fuel is irrelevant as long as it exceeds the remainder's length: the
loop is the C++ `while`, not a bounded iteration. -/
theorem tokensLoopF_congr (fuel fuel' : Nat) (l : List Char) (acc : List String)
    (hf : l.length < fuel) (hf' : l.length < fuel') :
    tokensLoopF fuel l acc = tokensLoopF fuel' l acc := by
  induction fuel generalizing fuel' l acc with
  | zero => omega
  | succ n ih =>
      cases fuel' with
      | zero => omega
      | succ n' =>
          simp only [tokensLoopF]
          cases hc : chomp l with
          | none => rfl
          | some p =>
              obtain ⟨tok, rest⟩ := p
              by_cases htok : tok = []
              · simp [htok]
              · have hrest := chomp_progress hc htok
                simp only [if_neg htok]
                exact ih n' rest _ (by omega) (by omega)

/-- The argument loop entered with the full remainder. -/
def tokensLoop (l : List Char) (acc : List String) : Option (List String) :=
  tokensLoopF (l.length + 1) l acc

/-- `Spell::from_string`: the first token names the program, the remaining
tokens are appended as its arguments.  `cwd` is the ambient current directory
used by the `Spell` constructor.  The result is `none` when parsing reads
out of range (see the section comment). -/
def Spell.from_string (command_line : String) (cwd : String) : Option Spell :=
  match chomp command_line.toList with
  | none => none
  | some (prog, rest) =>
      match tokensLoop rest [] with
      | none => none
      | some args => some (args.foldl Spell.arg (Spell.new (String.mk prog) cwd))

/-! ## The launch sequencer (`Spell::do_cast`, POSIX branch)

The spawn itself is recorded as a `SpawnCall`: what the forked child passes
to `execvp`/`execvpe`.  The fork child's own descriptor operations act on the
child's copy of the descriptor table and do not affect the parent's `OS`
state; what the parent observes of the child is whether `exec` succeeded
(`execOk`): on failure the child writes its 4-byte `errno` down the
side-channel pipe before `_exit(127)`, so the parent's blocking read on
`input` yields 4 bytes, while on success the close-on-exec side channel
collapses and the read yields 0 bytes. -/

/-- The call the forked child makes to start the program.  `chdir` is the
working directory the spawn is told to switch to — the child performs no
`chdir` and `execvp`/`execvpe` take no directory, so it is always `none`
(on the Windows branch, `CreateProcessA` is likewise passed a null
`lpCurrentDirectory`). -/
structure SpawnCall where
  prog : String
  argv : List String
  envp : Option (List String)
  chdir : Option String
deriving DecidableEq

/-- The working directory the spawned child actually runs in: the directory
the spawn call names when it names one, otherwise the parent's current
directory, which fork children and `CreateProcessA` with a null directory
argument inherit. -/
def SpawnCall.effective_cwd (s : SpawnCall) (parent_cwd : String) : String :=
  s.chdir.getD parent_cwd

/-- The `set_pipe` lambda of `do_cast`.  The C++ takes the stream
configuration by reference (`Stdio &cfg`) and writes the resolved default
back into the descriptor's member; the resolved configuration is therefore
returned alongside the pipes. -/
def set_pipe (default_cfg : Stdio) (cfg : Stdio) (os : OS) : Pipes × Stdio × OS :=
  let cfg' := if cfg = Stdio.Default then default_cfg else cfg
  match cfg' with
  | Stdio.Inherit =>
      -- Anonymous_Pipe::create_inherit: two dups of the standard stream
      let p := createPair os
      (p.1, Stdio.Inherit, p.2)
  | Stdio.Piped =>
      -- Anonymous_Pipe::create: a pipe2 pair
      let p := createPair os
      (p.1, Stdio.Piped, p.2)
  | Stdio.Null =>
      -- Anonymous_Pipe::create_null: two dups of the shared null device
      let p := createPair os
      (p.1, Stdio.Null, p.2)
  | Stdio.Default =>
      -- no branch of the switch taken: the pipes stay INVALID_PIPE
      ({ read := none, write := none }, Stdio.Default, os)

/-- The result of `Spell::do_cast`: the optional `Child`, the descriptor as
it stands after the call (`set_pipe` wrote the resolved stream
configurations back into it), the parent's handle state, and the recorded
spawn call. -/
structure CastResult where
  child? : Option Child
  spell : Spell
  os : OS
  spawn : SpawnCall
deriving DecidableEq

/-- `Spell::do_cast` (POSIX branch), from the parent process's point of
view.  `execOk` tells whether the `exec` in the forked child succeeded;
`pid` is the fork's return value in the parent. -/
def Spell.do_cast (sp : Spell) (default_cfg : Stdio) (execOk : Bool) (pid : Nat)
    (os0 : OS) : CastResult :=
  let r_out := set_pipe default_cfg sp.stdout_ os0
  let out := r_out.1
  let r_err := set_pipe default_cfg sp.stderr_ r_out.2.2
  let err := r_err.1
  let r_in := set_pipe default_cfg sp.stdin_ r_err.2.2
  let inp := r_in.1
  let sp' := { sp with stdout_ := r_out.2.1, stderr_ := r_err.2.1, stdin_ := r_in.2.1 }
  -- auto [input, output] = Anonymous_Pipe::create (); - the side channel
  let side := createPair r_in.2.2
  let input := side.1.read
  let output := side.1.write
  -- fork; the child dups its stream ends onto fd 0/1/2 and execs
  let spawn : SpawnCall :=
    { prog := sp'.program_
      argv := sp'.program_ :: sp'.args_
      envp := sp'.env_.map Env.serialize
      chdir := none }
  let os2 := dropPipe output side.2    -- output.drop ()
  let os3 := dropPipe inp.read os2     -- in.read.drop ()
  let os4 := dropPipe out.write os3    -- out.write.drop ()
  let os5 := dropPipe err.write os4    -- err.write.drop ()
  if execOk then
    -- input.read saw the side channel close on exec: 0 bytes
    let os6 := dropPipe input os5      -- input.drop ()
    { child? := some { pid_ := pid, status_ := -1,
                       stdin_ := inp.write, stdout_ := out.read,
                       stderr_ := err.read }
      spell := sp', os := os6, spawn := spawn }
  else
    -- input.read delivered the child's 4-byte errno
    let os6 := dropPipe input os5      -- input.drop ()
    let os7 := dropPipe inp.write os6
    let os8 := dropPipe out.read os7
    let os9 := dropPipe err.read os8
    { child? := none, spell := sp', os := os9, spawn := spawn }

/-- `Spell::cast`: launch with `Stdio::Default` resolved to `Inherit`. -/
def Spell.cast (sp : Spell) (execOk : Bool) (pid : Nat) (os : OS) : CastResult :=
  sp.do_cast Stdio.Inherit execOk pid os

/-- `Spell::cast_status`: like `cast`, then wait for the child. `raw` is the
status the blocking `waitpid` reports when the child exists. -/
def Spell.cast_status (sp : Spell) (execOk : Bool) (pid : Nat) (os : OS)
    (raw : Nat) : Option ExitStatus × Spell × OS :=
  let r := sp.do_cast Stdio.Inherit execOk pid os
  match r.child? with
  | some child =>
      let w := child.wait raw r.os
      (some w.1, r.spell, w.2.2.1)
  | none => (none, r.spell, r.os)

/-- `Spell::cast_output`: launch with `Stdio::Default` resolved to `Piped`,
then wait and collect the remaining output. -/
def Spell.cast_output (sp : Spell) (execOk : Bool) (pid : Nat) (os : OS)
    (raw : Nat) (outBytes errBytes : List Char) : Option Output × Spell × OS :=
  let r := sp.do_cast Stdio.Piped execOk pid os
  match r.child? with
  | some child =>
      let w := child.wait_with_output raw r.os outBytes errBytes
      (some w.1, r.spell, w.2.2)
  | none => (none, r.spell, r.os)

/-! ## Launch sequencer lemmas -/

/-- With a non-Default entry-point default, every stream configuration
materializes exactly one pair of fresh handles, whatever kind it resolves
to. -/
theorem set_pipe_alloc (d cfg : Stdio) (os : OS) (hd : d ≠ Stdio.Default) :
    set_pipe d cfg os =
      ({ read := some os.next, write := some (os.next + 1) },
       (if cfg = Stdio.Default then d else cfg),
       { next := os.next + 2,
         opened := insert (os.next + 1) (insert os.next os.opened) }) := by
  cases d <;> cases cfg <;> first | exact absurd rfl hd | rfl

/-- The resolved configuration `set_pipe` writes back into the descriptor. -/
theorem set_pipe_cfg (d cfg : Stdio) (os : OS) :
    (set_pipe d cfg os).2.1 = if cfg = Stdio.Default then d else cfg := by
  cases d <;> cases cfg <;> rfl

/-- The spawn call `do_cast` records, in both the success and the failure
branch: argv is the program followed by the arguments, the environment block
is present exactly when the descriptor overrides the environment, and no
working directory is passed. -/
theorem do_cast_spawn (sp : Spell) (d : Stdio) (execOk : Bool) (pid : Nat)
    (os : OS) :
    (sp.do_cast d execOk pid os).spawn =
      { prog := sp.program_, argv := sp.program_ :: sp.args_,
        envp := sp.env_.map Env.serialize, chdir := none } := by
  unfold Spell.do_cast
  cases execOk <;> simp

/-- The failure path of `do_cast`: no child, and the parent's open-handle set
is restored to exactly its pre-call contents. -/
theorem do_cast_fail (sp : Spell) (d : Stdio) (hd : d ≠ Stdio.Default)
    (pid : Nat) (os : OS) (hfresh : ∀ h ∈ os.opened, h < os.next) :
    (sp.do_cast d false pid os).child? = none ∧
    (sp.do_cast d false pid os).os.opened = os.opened := by
  constructor
  · simp only [Spell.do_cast]
    rw [set_pipe_alloc _ _ _ hd, set_pipe_alloc _ _ _ hd, set_pipe_alloc _ _ _ hd]
    simp [createPair, OS.alloc, dropPipe, OS.close]
  · simp only [Spell.do_cast]
    rw [set_pipe_alloc _ _ _ hd, set_pipe_alloc _ _ _ hd, set_pipe_alloc _ _ _ hd]
    simp only [createPair, OS.alloc, dropPipe, OS.close, Bool.false_eq_true,
      if_false]
    ext a
    simp only [Finset.mem_erase, Finset.mem_insert]
    by_cases ha : a ∈ os.opened
    · have := hfresh a ha
      simp [ha]
      omega
    · simp [ha]
      omega

/-! ## Claim theorems -/

/-- Claim C1: for every descriptor whose program cannot be started (the
`exec` in the forked child fails), `cast`, `cast_status` and `cast_output`
all return an absent result — no `Child` is constructed — and the parent's
set of open pipe handles after the call equals the set before it: the
parent-retained ends, the ends meant for the child, and the spawn-failure
side-channel pair are all released before the call returns. -/
theorem cast_failure_absent_and_releases_pipes (sp : Spell) (pid : Nat)
    (os : OS) (raw : Nat) (outBytes errBytes : List Char)
    (hfresh : ∀ h ∈ os.opened, h < os.next) :
    (sp.cast false pid os).child? = none ∧
    (sp.cast false pid os).os.opened = os.opened ∧
    (sp.cast_status false pid os raw).1 = none ∧
    (sp.cast_status false pid os raw).2.2.opened = os.opened ∧
    (sp.cast_output false pid os raw outBytes errBytes).1 = none ∧
    (sp.cast_output false pid os raw outBytes errBytes).2.2.opened = os.opened := by
  have hI : (Stdio.Inherit : Stdio) ≠ Stdio.Default := by decide
  have hP : (Stdio.Piped : Stdio) ≠ Stdio.Default := by decide
  have h1 := do_cast_fail sp Stdio.Inherit hI pid os hfresh
  have h2 := do_cast_fail sp Stdio.Piped hP pid os hfresh
  refine ⟨?_, ?_, ?_, ?_, ?_, ?_⟩
  · simpa [Spell.cast] using h1.1
  · simpa [Spell.cast] using h1.2
  · simp [Spell.cast_status, h1.1]
  · simp [Spell.cast_status, h1.1, h1.2]
  · simp [Spell.cast_output, h2.1]
  · simp [Spell.cast_output, h2.1, h2.2]

theorem cast_failure_absent_and_releases_pipes_witness :
    (∀ h ∈ (⟨0, ∅⟩ : OS).opened, h < (⟨0, ∅⟩ : OS).next) ∧
    (((Spell.new "i_do_not_exist" "/").cast false 7 ⟨0, ∅⟩).child? = none ∧
     ((Spell.new "i_do_not_exist" "/").cast false 7 ⟨0, ∅⟩).os.opened = (⟨0, ∅⟩ : OS).opened ∧
     ((Spell.new "i_do_not_exist" "/").cast_status false 7 ⟨0, ∅⟩ 0).1 = none ∧
     ((Spell.new "i_do_not_exist" "/").cast_status false 7 ⟨0, ∅⟩ 0).2.2.opened = (⟨0, ∅⟩ : OS).opened ∧
     ((Spell.new "i_do_not_exist" "/").cast_output false 7 ⟨0, ∅⟩ 0 [] []).1 = none ∧
     ((Spell.new "i_do_not_exist" "/").cast_output false 7 ⟨0, ∅⟩ 0 [] []).2.2.opened = (⟨0, ∅⟩ : OS).opened) :=
  ⟨by decide,
   cast_failure_absent_and_releases_pipes (Spell.new "i_do_not_exist" "/") 7
     ⟨0, ∅⟩ 0 [] [] (by decide)⟩

/-- Claim C2 (code refutation): a child that exited normally with code 1 has
raw `waitpid` status 256.  `Child::try_wait` returns `Exit_Status(256)` — the
raw encoded status — although the program's actual exit code is
`WEXITSTATUS 256 = 1`, which `wait`, replaying the very status `try_wait`
cached, does expose.  The claim that `try_wait` also decodes is false on the
code. -/
theorem try_wait_exposes_raw_status_at_exit_code_one :
    ((⟨42, -1, none, none, none⟩ : Child).try_wait (some 256)).1 = some ⟨256⟩ ∧
    WEXITSTATUS 256 = 1 ∧
    (((⟨42, -1, none, none, none⟩ : Child).try_wait (some 256)).2.wait 0 ⟨0, ∅⟩).1 = ⟨1⟩ ∧
    (256 : Int) ≠ 1 := by
  decide

/-- Claim C3 counterexample: launching is claimed to leave the descriptor
unchanged, but a freshly constructed descriptor (all three stream
configurations `Default`) comes back from `cast` with its stream
configurations overwritten by the resolved default. -/
theorem cast_mutates_descriptor_counterexample :
    ((Spell.new "prog" "/").cast true 7 ⟨0, ∅⟩).spell ≠ Spell.new "prog" "/" := by
  decide

/-- Claim C3 (amended): launching leaves program, arguments, environment and
working directory unchanged, but the three stream configurations are written
back in place by `set_pipe` (which takes them by reference): a configuration
equal to `Default` becomes the entry point's default, the others are
retained. -/
theorem do_cast_frame (sp : Spell) (d : Stdio) (execOk : Bool) (pid : Nat)
    (os : OS) :
    (sp.do_cast d execOk pid os).spell.program_ = sp.program_ ∧
    (sp.do_cast d execOk pid os).spell.args_ = sp.args_ ∧
    (sp.do_cast d execOk pid os).spell.env_ = sp.env_ ∧
    (sp.do_cast d execOk pid os).spell.working_dir_ = sp.working_dir_ ∧
    (sp.do_cast d execOk pid os).spell.stdout_ =
      (if sp.stdout_ = Stdio.Default then d else sp.stdout_) ∧
    (sp.do_cast d execOk pid os).spell.stderr_ =
      (if sp.stderr_ = Stdio.Default then d else sp.stderr_) ∧
    (sp.do_cast d execOk pid os).spell.stdin_ =
      (if sp.stdin_ = Stdio.Default then d else sp.stdin_) := by
  unfold Spell.do_cast
  cases execOk <;> simp [set_pipe_cfg]

/-- Claim C4: `from_string` splits per the quoting rules:
`"prog 'a b' c"` gives program `prog` and arguments exactly `["a b", "c"]`,
and `"prog H'ell'o"` gives the single argument `"Hello"` — adjacent quoted
segments concatenate with no separator and the quotes are stripped. -/
theorem from_string_quoting_examples :
    (Spell.from_string "prog 'a b' c" "/").map (fun s => (s.program_, s.args_)) =
      some ("prog", ["a b", "c"]) ∧
    (Spell.from_string "prog H'ell'o" "/").map (fun s => (s.program_, s.args_)) =
      some ("prog", ["Hello"]) := by
  decide

/-- Claim C5 (code refutation): on the Windows branch a second `wait` does
not replay a cached result, because `wait` never writes `status_` there.
For a child first waited with exit code 7, the second call sees `status_`
still `-1`, invokes the OS wait primitive again (count 1, not 0) on the
handle the first call closed, and returns whatever value the failed query
left in the uninitialized `DWORD` (here 9) — not an `Exit_Status` identical
to the first call's. -/
theorem wait_twice_windows_reinvokes_and_differs :
    (Child.wait_win ⟨42, -1, none, none, none⟩ 7 ⟨0, ∅⟩).1 = ⟨7⟩ ∧
    (Child.wait_win (Child.wait_win ⟨42, -1, none, none, none⟩ 7 ⟨0, ∅⟩).2.1 9 ⟨0, ∅⟩).2.2.2 = 1 ∧
    (Child.wait_win (Child.wait_win ⟨42, -1, none, none, none⟩ 7 ⟨0, ∅⟩).2.1 9 ⟨0, ∅⟩).1 ≠
      (Child.wait_win ⟨42, -1, none, none, none⟩ 7 ⟨0, ∅⟩).1 := by
  decide

/-- On the fork/exec branch, by contrast, the first `wait` caches the raw
status, so a second `wait` on the same child returns an `Exit_Status`
identical to the first call's and performs zero invocations of the OS wait
primitive (contrast `Child.wait_win`, where the cache is never written). -/
theorem wait_twice_replays_cached_status (c : Child) (raw raw' : Nat)
    (os os' : OS) :
    (Child.wait (Child.wait c raw os).2.1 raw' os').1 = (Child.wait c raw os).1 ∧
    (Child.wait (Child.wait c raw os).2.1 raw' os').2.2.2 = 0 := by
  have hr : ((raw : Int)) ≠ -1 := by omega
  by_cases h : c.status_ = -1
  · simp [Child.wait, h, hr]
  · simp [Child.wait, h]

/-- Claim C6 (code refutation): `current_dir("/tmp")` stores `/tmp` in the
descriptor, but `do_cast` passes no working directory to the OS spawn call
(`chdir` is absent from the recorded call), so the child runs in the
parent's current directory, not in the descriptor's. -/
theorem do_cast_ignores_working_dir :
    ((Spell.new "pwd" "/home/user").current_dir "/tmp").working_dir_ = "/tmp" ∧
    (((Spell.new "pwd" "/home/user").current_dir "/tmp").cast true 7 ⟨0, ∅⟩).spawn.chdir = none ∧
    (((Spell.new "pwd" "/home/user").current_dir "/tmp").cast true 7 ⟨0, ∅⟩).spawn.effective_cwd "/home/user" = "/home/user" ∧
    ("/home/user" : String) ≠ "/tmp" := by
  decide

/-- Claim C7: on an environment map (with the hash-set invariant that keys
are unique), `get` after `set` yields the written value, `get` after
`remove` yields the empty string, and `set` on a present key overwrites
without adding an entry — the size is unchanged. -/
theorem env_set_get_remove_overwrite (e : Env) (key value : String)
    (hnd : (e.map Prod.fst).Nodup) :
    Env.get (Env.set e key value) key = value ∧
    Env.get (Env.remove e key) key = "" ∧
    (Env.contains e key = true →
      Env.size (Env.set e key value) = Env.size e) :=
  ⟨Env.get_set e key value, Env.get_remove_self e key hnd,
   fun hc => Env.size_set_of_contains e key value hc⟩

theorem env_set_get_remove_overwrite_witness :
    (([(("A" : String), ("1" : String)), ("B", "2")].map Prod.fst).Nodup) ∧
    (Env.get (Env.set [("A", "1"), ("B", "2")] "A" "3") "A" = "3" ∧
     Env.get (Env.remove [("A", "1"), ("B", "2")] "A") "A" = "" ∧
     (Env.contains [("A", "1"), ("B", "2")] "A" = true →
       Env.size (Env.set [("A", "1"), ("B", "2")] "A" "3") =
         Env.size [("A", "1"), ("B", "2")])) :=
  ⟨by decide, env_set_get_remove_overwrite [("A", "1"), ("B", "2")] "A" "3" (by decide)⟩

/-- Claim C8 (code refutation): on the input `a\` — ending in a trailing
unescaped backslash — the token loop's escape case reaches the end of the
input, the `break` leaves only the `switch`, and the loop increment then
dereferences past the end of the buffer: parsing takes the out-of-range
branch instead of dropping the backslash and returning normally. -/
theorem from_string_trailing_backslash_reads_out_of_range :
    Spell.from_string "a\\" "/" = none ∧
    chompLoop "a\\".toList false NUL [] = none := by
  decide

/-- Claim C9: when the descriptor's environment is absent (inherit), the
const `get_envs` overload returns the shared empty environment, in which
every lookup is empty, while the non-const overload materializes a snapshot
of the live process environment into the descriptor, so afterwards the
environment is no longer absent and a launch passes an explicit environment
block instead of inheriting (`envp` present instead of absent). -/
theorem get_envs_absent_overloads (sp : Spell) (procEnv : Env) (key : String)
    (d : Stdio) (execOk : Bool) (pid : Nat) (os : OS)
    (habsent : sp.env_ = none) :
    Spell.get_envs_const sp = Env.empty_env ∧
    Env.get (Spell.get_envs_const sp) key = "" ∧
    (sp.get_envs_mut procEnv).2.env_ = some procEnv ∧
    ((sp.get_envs_mut procEnv).2.do_cast d execOk pid os).spawn.envp =
      some (Env.serialize procEnv) ∧
    (sp.do_cast d execOk pid os).spawn.envp = none := by
  refine ⟨?_, ?_, ?_, ?_, ?_⟩
  · simp [Spell.get_envs_const, habsent]
  · simp [Spell.get_envs_const, habsent, Env.empty_env, Env.get]
  · simp [Spell.get_envs_mut, habsent]
  · rw [do_cast_spawn]
    simp [Spell.get_envs_mut, habsent]
  · rw [do_cast_spawn]
    simp [habsent]

theorem get_envs_absent_overloads_witness :
    (Spell.new "prog" "/").env_ = none ∧
    (Spell.get_envs_const (Spell.new "prog" "/") = Env.empty_env ∧
     Env.get (Spell.get_envs_const (Spell.new "prog" "/")) "PATH" = "" ∧
     ((Spell.new "prog" "/").get_envs_mut [("A", "1")]).2.env_ = some [("A", "1")] ∧
     (((Spell.new "prog" "/").get_envs_mut [("A", "1")]).2.do_cast Stdio.Inherit true 7 ⟨0, ∅⟩).spawn.envp =
       some (Env.serialize [("A", "1")]) ∧
     ((Spell.new "prog" "/").do_cast Stdio.Inherit true 7 ⟨0, ∅⟩).spawn.envp = none) :=
  ⟨by decide,
   get_envs_absent_overloads (Spell.new "prog" "/") [("A", "1")] "PATH"
     Stdio.Inherit true 7 ⟨0, ∅⟩ (by decide)⟩

/-- Claim C10: renaming a variable onto a key that already exists (with the
two keys distinct, under the hash-set invariant of unique keys) erases the
old entry but leaves the pre-existing target entry with its prior value —
the renamed variable's value is silently discarded (the set insert is a
no-op) and the map shrinks by one. -/
theorem rename_onto_existing_key_discards_value (e : Env) (key new_key : String)
    (hnd : (e.map Prod.fst).Nodup)
    (hold : Env.contains e key = true)
    (hnew : Env.contains e new_key = true)
    (hne : key ≠ new_key) :
    Env.get (Env.rename e key new_key) new_key = Env.get e new_key ∧
    Env.contains (Env.rename e key new_key) key = false ∧
    Env.size (Env.rename e key new_key) = Env.size e - 1 := by
  have h1 : Env.contains (Env.remove e key) new_key = true := by
    rw [Env.contains_remove_ne e key new_key hne]
    exact hnew
  have hres : Env.rename e key new_key = Env.remove e key := by
    simp only [Env.rename, hold, h1, if_true]
  rw [hres]
  exact ⟨Env.get_remove_ne e key new_key hne,
         Env.contains_remove_self e key hnd,
         Env.size_remove_of_contains e key hold⟩

theorem rename_onto_existing_key_discards_value_witness :
    (([(("A" : String), ("1" : String)), ("B", "2")].map Prod.fst).Nodup) ∧
    Env.contains [("A", "1"), ("B", "2")] "A" = true ∧
    Env.contains [("A", "1"), ("B", "2")] "B" = true ∧
    ("A" : String) ≠ "B" ∧
    (Env.get (Env.rename [("A", "1"), ("B", "2")] "A" "B") "B" =
       Env.get [("A", "1"), ("B", "2")] "B" ∧
     Env.contains (Env.rename [("A", "1"), ("B", "2")] "A" "B") "A" = false ∧
     Env.size (Env.rename [("A", "1"), ("B", "2")] "A" "B") =
       Env.size [("A", "1"), ("B", "2")] - 1) :=
  ⟨by decide, by decide, by decide, by decide,
   rename_onto_existing_key_discards_value [("A", "1"), ("B", "2")] "A" "B"
     (by decide) (by decide) (by decide) (by decide)⟩

end Spell2
